import Mathlib

/-!
Verification of the GTStore distributed key-value store (manager, storage
node, client) against its natural-language specification.

The development shallowly embeds the relevant C++ code: C++ strings become
lists of characters, the unordered maps of the storage node and manager
become association lists, machine integers become natural numbers with
explicit reductions modulo powers of two where a cast occurs, and network
effects are abstracted as explicit inputs (reply oracles) and outputs
(lists of sent messages).  The platform string hash, constructed at each
call site as an object of the same platform-defined type, is a parameter
of every routing definition.
-/

set_option autoImplicit false

/-- C++ std::string modelled as its character sequence. -/
abbrev Str := List Char

namespace gtstore_utils

/-- Model of utils.cpp split: the getline loop reads a fragment up to the
delimiter (consuming it) and stops at end of input, so a trailing empty
fragment after a final delimiter is never produced and the empty string
yields no fragments at all. -/
def split (s : Str) (d : Char) : List Str :=
  match s with
  | [] => []
  | c :: rest =>
    if c = d then [] :: split rest d
    else
      match split rest d with
      | [] => [[c]]
      | f :: fs => (c :: f) :: fs

/-- Model of utils.cpp join: concatenate the parts with the delimiter
between consecutive parts. -/
def join (parts : List Str) (d : Char) : Str :=
  match parts with
  | [] => []
  | [p] => p
  | p :: rest => p ++ d :: join rest d

/-- The characters isspace recognises in the default locale. -/
def isSpaceC (c : Char) : Bool :=
  c = ' ' || c = '\t' || c = '\n' || c = '\x0b' || c = '\x0c' || c = '\r'

/-- Model of utils.cpp trim: drop isspace characters from both ends. -/
def trim (s : Str) : Str :=
  ((s.dropWhile isSpaceC).reverse.dropWhile isSpaceC).reverse

/-- A decimal digit character. -/
def isDigitC (c : Char) : Bool :=
  '0' ≤ c && c ≤ '9'

/-- The character for one decimal digit value. -/
def digitC (n : Nat) : Char :=
  Char.ofNat (48 + n)

/-- Decimal digit printing with explicit fuel, structurally recursive so
that concrete inputs evaluate inside the kernel. -/
def natDigitsCore (fuel n : Nat) : Str :=
  match fuel with
  | 0 => []
  | fuel + 1 =>
    if n < 10 then [digitC n]
    else natDigitsCore fuel (n / 10) ++ [digitC (n % 10)]

/-- Model of to_string on an unsigned integer: decimal digits, most
significant first. -/
def natDigits (n : Nat) : Str :=
  natDigitsCore (n + 1) n

/-- Numeric value of one digit character. -/
def digitVal (c : Char) : Nat :=
  c.toNat - 48

/-- Value of a run of decimal digit characters, most significant first. -/
def digitsVal (s : Str) : Nat :=
  s.foldl (fun acc c => 10 * acc + digitVal c) 0

/-- Model of std::stoul / std::stoull on the inputs this codebase
produces: skip leading isspace characters, then read a run of decimal
digits; no digits, or a value beyond the given maximum, throws - modelled
as none.  (The C++ functions additionally accept a sign character, which
no caller in the repository ever produces.) -/
def stoulModel (s : Str) (maxVal : Nat) : Option Nat :=
  let t := s.dropWhile isSpaceC
  let digits := t.takeWhile isDigitC
  if digits = [] then none
  else if digitsVal digits ≤ maxVal then some (digitsVal digits) else none

/-- Split a string at the first occurrence of a character, modelling
find plus the two substr calls; none when the character is absent. -/
def breakAt (s : Str) (c : Char) : Option (Str × Str) :=
  if c ∈ s then
    some (s.takeWhile (fun x => x ≠ c), (s.dropWhile (fun x => x ≠ c)).drop 1)
  else none

end gtstore_utils

/-- A TCP endpoint, from net_common.hpp. -/
structure NodeAddress where
  host : Str
  port : Nat
deriving DecidableEq

/-- One virtual ring entry, from net_common.hpp. -/
structure StorageNodeInfo where
  node_id : Str
  address : NodeAddress
  token : Nat
deriving DecidableEq

namespace gtstore_utils

/-- Model of utils.cpp build_table_payload: K then a hash mark, then the
rows joined by semicolons, each row the comma-joined id, host, port and
token. -/
def build_table_payload (nodes : List StorageNodeInfo) (replication_factor : Nat) : Str :=
  let rows := nodes.map (fun node =>
    node.node_id ++ ',' :: (node.address.host ++ ',' ::
      (natDigits node.address.port ++ ',' :: natDigits node.token)))
  natDigits replication_factor ++ '#' :: join rows ';'

/-- Parse one table row: none models an uncaught stoi/stoull exception
(process termination); some none models a skipped row (empty, or not four
columns); some (some e) is a parsed entry.  Ports pass through a cast to
uint16_t and tokens through a cast to uint64_t. -/
def parse_table_row (row : Str) : Option (Option StorageNodeInfo) :=
  if row = [] then some none
  else
    let cols := split row ','
    if cols.length = 4 then
      match stoulModel (cols.getD 2 []) 2147483647 with
      | none => none
      | some portVal =>
        match stoulModel (cols.getD 3 []) 18446744073709551615 with
        | none => none
        | some tokenVal =>
          some (some { node_id := trim (cols.getD 0 [])
                     , address := { host := trim (cols.getD 1 [])
                                  , port := portVal % 65536 }
                     , token := tokenVal % 18446744073709551616 })
    else some none

/-- Fold the rows, propagating a crash and dropping skipped rows. -/
def parse_table_rows : List Str → Option (List StorageNodeInfo)
  | [] => some []
  | row :: rest =>
    match parse_table_row row with
    | none => none
    | some none => parse_table_rows rest
    | some (some e) =>
      match parse_table_rows rest with
      | none => none
      | some es => some (e :: es)

/-- Model of utils.cpp parse_table_payload.  The replication factor
defaults to 1; a hash mark splits off the K section, which is trimmed and
read with stoul under a catch-all that keeps the default (so the K parse
never crashes); the remaining rows are parsed as above.  The result is
none when a row parse throws (the C++ exception is uncaught). -/
def parse_table_payload (payload : Str) : Option (List StorageNodeInfo × Nat) :=
  let (k, tableSection) :=
    match breakAt payload '#' with
    | none => (1, payload)
    | some (pre, post) =>
      let p := trim pre
      if p = [] then (1, post)
      else
        match stoulModel p 18446744073709551615 with
        | none => (1, post)
        | some n => (n, post)
  match parse_table_rows (split tableSection ';') with
  | none => none
  | some entries => some (entries, k)

end gtstore_utils

/-- Model of the platform std::hash over strings: every call site
constructs the same platform-defined function object, so the whole
development is parametric in one hash function. -/
abbrev HashFn := Str → Nat

namespace GTStoreClient

open gtstore_utils

/-- The sentinel StorageNodeInfo the client returns for an empty routing
table: empty id, the default manager host with the storage base port. -/
def emptyTableSentinel : StorageNodeInfo :=
  { node_id := [], address := { host := "127.0.0.1".data, port := 6000 }, token := 0 }

/-- The start index of client.cpp pick_node_for_attempt.  The C++ local
start_index is declared without an initialiser and the scan assigns it
only when some token is at least the key hash; when no token matches, the
subsequent wrap test reads the indeterminate value, modelled by the extra
argument junk. -/
def clientStartIndex (h : HashFn) (table : List StorageNodeInfo) (key : Str) (junk : Nat) : Nat :=
  let hashValue := h key
  let start0 :=
    match table.findIdx? (fun e => hashValue ≤ e.token) with
    | some i => i
    | none => junk
  if start0 = table.length then 0 else start0

/-- Model of client.cpp pick_node_for_attempt: start index plus attempt,
wrapped through the size_t addition and then reduced modulo the table
size. -/
def pick_node_for_attempt (h : HashFn) (table : List StorageNodeInfo) (key : Str)
    (attempt : Nat) (junk : Nat) : StorageNodeInfo :=
  if table = [] then emptyTableSentinel
  else
    let start := clientStartIndex h table key junk
    let index := ((start + attempt) % 18446744073709551616) % table.length
    table.getD index emptyTableSentinel

/-- Model of client.cpp parse_value: split the payload on commas and keep
the non-empty fragments. -/
def parse_value (payload : Str) : List Str :=
  (split payload ',').filter (fun entry => entry ≠ [])

/-- Model of client.cpp serialize_value: join the value list with commas. -/
def serialize_value (value : List Str) : Str :=
  join value ','

/-- The number of replicas client.cpp put (and get) walks: the cached
replication factor capped by the routing table size, the latter floored
at one. -/
def replicasFor (replicationFactor tableSize : Nat) : Nat :=
  min replicationFactor (max 1 tableSize)

/-- The decision logic of client.cpp put, abstracted over the network: one
acknowledgement flag per loop attempt (true exactly when the connect, the
send and a PUT_OK reply all succeeded; the first attempt is the
CLIENT_PUT to the primary, later attempts are REPL_PUTs), plus the
acknowledgement of the final REPL_CONFIRM on the primary connection.
The loop keeps the primary connection open only when attempt zero was
acknowledged; put returns false when the stored count differs from the
replica count, otherwise it requires the REPL_CONFIRM acknowledgement on
the still-open primary connection. -/
def put_outcome (replicas : Nat) (acks : List Bool) (confirmAck : Bool) : Bool :=
  let stored := acks.count true
  let primaryOpen := acks.headD false
  if stored ≠ replicas then false
  else if primaryOpen then confirmAck
  else true

end GTStoreClient

/-- Lookup in an association list modelling unordered_map find. -/
def findVal (k : Str) : List (Str × Str) → Option Str
  | [] => none
  | (k', v) :: rest => if k' = k then some v else findVal k rest

/-- Index assignment m[k] = v on an association list: overwrite the value
in place if the key exists, otherwise add the entry. -/
def mapAssign : List (Str × Str) → Str → Str → List (Str × Str)
  | [], k, v => [(k, v)]
  | (k', v') :: rest, k, v =>
    if k' = k then (k', v) :: rest else (k', v') :: mapAssign rest k v

/-- Erase a key from an association list modelling unordered_map erase. -/
def mapErase : List (Str × Str) → Str → List (Str × Str)
  | [], _ => []
  | (k', v') :: rest, k =>
    if k' = k then rest else (k', v') :: mapErase rest k

/-- A dummy ring entry used only as the default of in-range list indexing. -/
def dummyEntry : StorageNodeInfo :=
  { node_id := [], address := { host := [], port := 0 }, token := 0 }

/-- The wire message-type identifiers of net_common.hpp, by name. -/
def messageTypeIds : List (Str × Nat) :=
  [ ("CLIENT_PUT".data, 1), ("CLIENT_GET".data, 2), ("PUT_OK".data, 3)
  , ("GET_OK".data, 4), ("ERROR".data, 5), ("REPL_PUT".data, 6)
  , ("REPL_ACK".data, 7), ("HEARTBEAT".data, 8), ("HEARTBEAT_ACK".data, 9)
  , ("TABLE_PUSH".data, 10), ("STORAGE_REGISTER".data, 11), ("CLIENT_HELLO".data, 12)
  , ("REPL_CONFIRM".data, 13), ("GET_ALL_KEYS".data, 14), ("ALL_KEYS".data, 15)
  , ("DELETE_OK".data, 17), ("PAUSE_NODE".data, 18), ("RESUME_NODE".data, 19)
  , ("PAUSE_ACK".data, 20), ("RESUME_ACK".data, 21), ("AVAILABILITY_CHECK".data, 22)
  , ("AVAILABLE_STATUS".data, 23), ("MANAGER_GET".data, 24), ("MANAGER_DELETE".data, 25) ]

namespace GTStoreStorage

open gtstore_utils

/-- The full mutable state of one storage node that the request handlers
read or write. -/
structure StorageState where
  kv_store : List (Str × Str)
  key_locks : List (Str × Str)
  paused : Bool
  routing_table : List StorageNodeInfo
  replication_factor : Nat
  storage_id : Str
deriving DecidableEq

/-- The single reply a handler sends on the request connection; crash
models an uncaught exception terminating the handler. -/
inductive Reply where
  | msg (typeCode : Nat) (payload : Str)
  | crash
deriving DecidableEq

/-- Model of storage.cpp key_valid. -/
def key_valid (key : Str) : Bool :=
  key ≠ [] && key.length ≤ 20

/-- Model of storage.cpp value_valid. -/
def value_valid (value : Str) : Bool :=
  value.length ≤ 1000

/-- Model of storage.cpp try_acquire_lock: fail exactly when the key is
present, otherwise record the holder. -/
def try_acquire_lock (locks : List (Str × Str)) (key client_id : Str) :
    Option (List (Str × Str)) :=
  match findVal key locks with
  | some _ => none
  | none => some ((key, client_id) :: locks)

/-- Model of storage.cpp release_lock: erase the entry if present. -/
def release_lock (locks : List (Str × Str)) (key : Str) : List (Str × Str) :=
  mapErase locks key

/-- The lock-acquisition loop of the primary write path: acquire key by
key; on the first conflict stop, returning the lock table as it stands
(with the earlier acquisitions still recorded), the conflicting key, and
the keys acquired so far. -/
def acquireLoop (locks : List (Str × Str)) (keys : List Str) (client_id : Str)
    (acquired : List Str) : List (Str × Str) × Option Str × List Str :=
  match keys with
  | [] => (locks, none, acquired)
  | k :: rest =>
    match try_acquire_lock locks k client_id with
    | none => (locks, some k, acquired)
    | some locks2 => acquireLoop locks2 rest client_id (acquired ++ [k])

/-- Parse and validate the put payload fragments into key-value pairs,
with the first error message produced by the C++ loop. -/
def parsePutPairs : List Str → Except Str (List (Str × Str))
  | [] => Except.ok []
  | pair :: rest =>
    match breakAt pair '|' with
    | none => Except.error ("bad put format: ".data ++ pair)
    | some (key, value) =>
      if ¬ key_valid key then Except.error ("bad key: ".data ++ key)
      else if ¬ value_valid value then Except.error ("bad value for key: ".data ++ key)
      else
        match parsePutPairs rest with
        | Except.error e => Except.error e
        | Except.ok kvs => Except.ok ((key, value) :: kvs)

/-- The primary index computed in storage.cpp handle_put: primary_idx
starts at zero and the scan stops at the first token at least the key
hash, so a missed scan leaves index zero. -/
def storage_primary_idx (h : HashFn) (table : List StorageNodeInfo) (key : Str) : Nat :=
  (table.findIdx? (fun e => h key ≤ e.token)).getD 0

/-- The fan-out targets of the primary write path: for each replica rank
below the replication factor, the virtual node at the primary index plus
the rank (modulo the table size), skipping exactly the index where the
node first found itself. -/
def fanoutTargets (table : List StorageNodeInfo) (primaryIdx curIdx k : Nat) :
    List StorageNodeInfo :=
  (List.range k).filterMap (fun rep =>
    if (primaryIdx + rep) % table.length = curIdx then none
    else some (table.getD ((primaryIdx + rep) % table.length) dummyEntry))

/-- The work of storage.cpp handle_put on the state pieces it touches:
given the store, the lock table, the routing snapshot, the replication
factor and the node's own id, produce the new store, the new lock table,
the reply, and the ring entries a primary sent REPL_PUT to.  The C++
holder identity is the string client_ concatenated with the connection
descriptor number fd.  Replica acknowledgements only feed a log line, so
no reply oracle is needed: the primary replies PUT_OK regardless of
fan-out results. -/
def handle_put_core (h : HashFn) (kv locks : List (Str × Str))
    (table : List StorageNodeInfo) (repFactor : Nat) (sid : Str) (fd : Nat)
    (payload : Str) (is_primary : Bool) :
    List (Str × Str) × List (Str × Str) × Reply × List StorageNodeInfo :=
  let pairs := split payload ';'
  if pairs = [] then (kv, locks, Reply.msg 5 "no pairs".data, [])
  else
    match parsePutPairs pairs with
    | Except.error e => (kv, locks, Reply.msg 5 e, [])
    | Except.ok kvPairs =>
      let client_id := "client_".data ++ natDigits fd
      let lockStep :=
        if is_primary then acquireLoop locks (kvPairs.map Prod.fst) client_id []
        else (locks, none, [])
      match lockStep with
      | (locksNow, some k, _) =>
        (kv, locksNow, Reply.msg 5 ("locked: ".data ++ k), [])
      | (locksNow, none, acquired) =>
        let kvNow := kvPairs.foldl (fun m p => mapAssign m p.1 p.2) kv
        if is_primary then
          match table.findIdx? (fun e => e.node_id = sid) with
          | none =>
            (kvNow, acquired.foldl release_lock locksNow
            , Reply.msg 5 "routing error".data, [])
          | some curIdx =>
            let firstKey := (kvPairs.headD ([], [])).1
            let primaryIdx := storage_primary_idx h table firstKey
            let sends := fanoutTargets table primaryIdx curIdx repFactor
            (kvNow, acquired.foldl release_lock locksNow
            , Reply.msg 3 "replicated".data, sends)
        else
          (kvNow, locksNow, Reply.msg 3 "ok".data, [])

/-- Model of storage.cpp handle_put as a state transformer, wrapping the
core computation on the fields it reads. -/
def handle_put (h : HashFn) (st : StorageState) (fd : Nat) (payload : Str)
    (is_primary : Bool) : StorageState × Reply × List StorageNodeInfo :=
  let r := handle_put_core h st.kv_store st.key_locks st.routing_table
    st.replication_factor st.storage_id fd payload is_primary
  ({ st with kv_store := r.1, key_locks := r.2.1 }, r.2.2.1, r.2.2.2)

/-- First invalid key of a batch, as the validation loop reports it. -/
def firstInvalidKey : List Str → Option Str
  | [] => none
  | k :: rest => if ¬ key_valid k then some k else firstInvalidKey rest

/-- Batched lookup in key order, stopping at the first missing key. -/
def lookupAll (kv : List (Str × Str)) : List Str → Except Str (List Str)
  | [] => Except.ok []
  | k :: rest =>
    match findVal k kv with
    | none => Except.error k
    | some v =>
      match lookupAll kv rest with
      | Except.error e => Except.error e
      | Except.ok vs => Except.ok (v :: vs)

/-- Model of storage.cpp handle_get: split the keys, validate them all,
then look each up, replying GET_OK with the semicolon-joined values or
the first error.  The store is never modified. -/
def handle_get (kv : List (Str × Str)) (payload : Str) : Reply :=
  let keys := split payload ';'
  if keys = [] then Reply.msg 5 "no keys".data
  else
    match firstInvalidKey keys with
    | some k => Reply.msg 5 ("bad key: ".data ++ k)
    | none =>
      match lookupAll kv keys with
      | Except.error k => Reply.msg 5 ("missing: ".data ++ k)
      | Except.ok values => Reply.msg 4 (join values ';')

/-- Model of storage.cpp handle_delete: split the keys, validate them
all, then erase each present key, replying DELETE_OK. -/
def handle_delete (kv : List (Str × Str)) (payload : Str) :
    List (Str × Str) × Reply :=
  let keys := split payload ';'
  if keys = [] then (kv, Reply.msg 5 "no keys".data)
  else
    match firstInvalidKey keys with
    | some k => (kv, Reply.msg 5 ("bad key: ".data ++ k))
    | none => (keys.foldl mapErase kv, Reply.msg 17 "ok".data)

/-- Model of the request dispatch in storage.cpp serve_clients: the
paused flag is read once at the top; the switch on the received wire
type code performs the action and sends one reply.  There is no case for
a client delete: any unlisted code reaches the default arm. -/
def dispatch (h : HashFn) (st : StorageState) (fd : Nat) (typeCode : Nat)
    (payload : Str) : StorageState × Reply × List StorageNodeInfo :=
  let is_paused := st.paused
  match typeCode with
  | 18 => ({ st with paused := true }, Reply.msg 20 "paused".data, [])
  | 19 => ({ st with paused := false }, Reply.msg 21 "resumed".data, [])
  | 22 =>
    (st, Reply.msg 23 (if st.key_locks = [] then "yes".data else "no".data), [])
  | 1 =>
    if is_paused then (st, Reply.msg 5 "node_paused".data, [])
    else handle_put h st fd payload true
  | 6 => handle_put h st fd payload false
  | 2 =>
    if is_paused then (st, Reply.msg 5 "node_paused".data, [])
    else (st, handle_get st.kv_store payload, [])
  | 24 => (st, handle_get st.kv_store payload, [])
  | 25 =>
    let r := handle_delete st.kv_store payload
    ({ st with kv_store := r.1 }, r.2, [])
  | 14 => (st, Reply.msg 15 (join (st.kv_store.map Prod.fst) ','), [])
  | 10 =>
    match parse_table_payload payload with
    | none => (st, Reply.crash, [])
    | some (nodes, k) =>
      ({ st with routing_table := nodes, replication_factor := k }
      , Reply.msg 9 "table_updated".data, [])
  | _ => (st, Reply.msg 5 "unknown".data, [])

/-- The pause-insensitive observation of a dispatch result: everything
except the paused flag itself. -/
def obs (r : StorageState × Reply × List StorageNodeInfo) :
    List (Str × Str) × List (Str × Str) × List StorageNodeInfo × Nat × Str ×
      Reply × List StorageNodeInfo :=
  (r.1.kv_store, r.1.key_locks, r.1.routing_table, r.1.replication_factor,
   r.1.storage_id, r.2.1, r.2.2)

end GTStoreStorage

namespace gtstore_utils

/-- Modelled from the spec: the body of consistent_hash is not in the
repository (utils.hpp declares it, src holds no definition).  The spec
fixes it to the one stable 64-bit hash used everywhere, for key routing
and virtual-token generation alike; in this parametric development that
is the platform hash itself. -/
def consistent_hash (h : HashFn) (input : Str) : Nat :=
  h input

/-- Modelled from the spec: generate_virtual_tokens is declared in
utils.hpp without a definition in src.  Spec section 3 derives the i-th
virtual token of a physical node from the hash of the node id
concatenated with i. -/
def generate_virtual_tokens (h : HashFn) (physical_node_id : Str) (num_vnodes : Nat) :
    List Nat :=
  (List.range num_vnodes).map
    (fun i => consistent_hash h (physical_node_id ++ natDigits i))

end gtstore_utils

namespace GTStoreManager

open gtstore_utils

/-- The manager state the heartbeat monitor reads and writes: the virtual
node table, the last-heartbeat instants (modelled in nanoseconds of the
steady clock), and the replication factor. -/
structure ManagerState where
  node_table : List StorageNodeInfo
  heartbeat_times : List (Str × Nat)
  replication_factor : Nat
deriving DecidableEq

/-- Lookup of a heartbeat instant by physical node id. -/
def findInstant (k : Str) : List (Str × Nat) → Option Nat
  | [] => none
  | (k', v) :: rest => if k' = k then some v else findInstant k rest

/-- The failure timeout of manager.cpp monitor_heartbeats, six seconds in
nanoseconds of the steady clock. -/
def failureTimeoutNs : Nat := 6000000000

/-- A physical node is expired exactly when its recorded heartbeat is
strictly older than the timeout, or no record exists. -/
def heartbeatExpired (hbs : List (Str × Nat)) (now : Nat) (id : Str) : Bool :=
  match findInstant id hbs with
  | some t => failureTimeoutNs < now - t
  | none => true

/-- The insertion pass into the expired set: walk the discovered ids,
skipping any id already recorded, exactly as the C++ loop consults the
set before inserting.  (The C++ std::set later iterates in sorted order;
every property proved about a pass is insensitive to that order, and this
model keeps discovery order.) -/
def dedupFirstAux (seen : List Str) : List Str → List Str
  | [] => []
  | x :: rest =>
    if x ∈ seen then dedupFirstAux seen rest
    else x :: dedupFirstAux (x :: seen) rest

/-- Keep the first occurrence of each discovered id. -/
def dedupFirst (l : List Str) : List Str :=
  dedupFirstAux [] l

/-- The expired physical node ids one monitor pass discovers, scanning
the node table copy in order. -/
def expiredIds (table : List StorageNodeInfo) (hbs : List (Str × Nat)) (now : Nat) :
    List Str :=
  dedupFirst ((table.filter (fun e => heartbeatExpired hbs now e.node_id)).map
    (fun e => e.node_id))

/-- The outcome of one pass of monitor_heartbeats: the state afterwards,
the failure-rebalance invocations in order (failed physical id together
with the node-table snapshot passed in), and whether the table was
rebroadcast. -/
structure MonitorPassResult where
  finalState : ManagerState
  rebalanceCalls : List (Str × List StorageNodeInfo)
  broadcast : Bool
deriving DecidableEq

/-- Model of one iteration of manager.cpp monitor_heartbeats after the
sleep: scan for expired physical nodes; if none, do nothing; otherwise
call rebalance_on_node_failure once per expired node against the node
table as it still stands (the rebalance routine takes the table by
reference and never mutates it), then erase every virtual entry of the
expired nodes in one sweep under the table mutex, erase their heartbeat
records, and broadcast the new table. -/
def monitor_pass (st : ManagerState) (now : Nat) : MonitorPassResult :=
  let exp := expiredIds st.node_table st.heartbeat_times now
  if exp = [] then
    { finalState := st, rebalanceCalls := [], broadcast := false }
  else
    { finalState :=
        { node_table := st.node_table.filter (fun e => decide (e.node_id ∉ exp))
        , heartbeat_times := st.heartbeat_times.filter (fun p => decide (p.1 ∉ exp))
        , replication_factor := st.replication_factor }
    , rebalanceCalls := exp.map (fun id => (id, st.node_table))
    , broadcast := true }

/-- The primary index computed in the two rebalance routines of
manager.cpp: primary_idx starts at minus one, the scan stops at the
first ring token at least the key hash, and a negative result wraps to
index zero. -/
def manager_primary_idx (h : HashFn) (nodes : List StorageNodeInfo) (key : Str) : Nat :=
  match nodes.findIdx? (fun e => e.token ≥ consistent_hash h key) with
  | some i => i
  | none => 0

end GTStoreManager

namespace SpecModel

open gtstore_utils

/-- Walk the ring entries in order, collecting entries of so-far-unseen
physical ids until the requested count is reached or the entries run
out.  Written from the specification's words (section 4.1), for
comparison with the walks the code performs. -/
def collectDistinct (seen : List Str) (entries : List StorageNodeInfo) (k : Nat) :
    List StorageNodeInfo :=
  match entries, k with
  | _, 0 => []
  | [], _ => []
  | e :: rest, Nat.succ k' =>
    if e.node_id ∈ seen then collectDistinct seen rest (Nat.succ k')
    else e :: collectDistinct (e.node_id :: seen) rest k'

/-- The start position of the specification's preference list: the
smallest index whose token is at least the key hash, wrapping to index
zero if none. -/
def specStartIndex (h : HashFn) (ring : List StorageNodeInfo) (key : Str) : Nat :=
  (ring.findIdx? (fun e => h key ≤ e.token)).getD 0

/-- The preference list as the specification words it (section 4.1):
from the start position walk forward around the ring accumulating
distinct physical node ids until K are collected or the ring is
exhausted.  This definition follows the spec, not the code, and is the
yardstick the code's replica walks are measured against. -/
def preference_list (h : HashFn) (ring : List StorageNodeInfo) (bigK : Nat) (key : Str) :
    List StorageNodeInfo :=
  collectDistinct [] (ring.rotate (specStartIndex h ring key)) bigK

/-- The number of distinct physical ids among a list of ring entries. -/
def distinctPhysicals (entries : List StorageNodeInfo) : Nat :=
  ((entries.map (fun e => e.node_id)).toFinset).card

/-- The first k consecutive virtual-node slots of the ring walk, starting
at the preference-list start position: the raw slot sequence both the
client's attempt walk and the primary's fan-out enumerate. -/
def walkSlots (h : HashFn) (ring : List StorageNodeInfo) (key : Str) (k : Nat) :
    List StorageNodeInfo :=
  (ring.rotate (specStartIndex h ring key)).take k

end SpecModel

/-- A concrete instantiation of the platform hash, mapping every string
to zero, used for concrete evaluations. -/
def hashZero : HashFn := fun _ => 0

/-- A concrete instantiation of the platform hash, mapping every string
to five, used for concrete evaluations. -/
def hashFive : HashFn := fun _ => 5

/-- Concrete ring entry: first virtual node of physical A. -/
def nodeA1 : StorageNodeInfo :=
  { node_id := "A".data, address := { host := "hA".data, port := 6001 }, token := 10 }

/-- Concrete ring entry: second virtual node of physical A. -/
def nodeA2 : StorageNodeInfo :=
  { node_id := "A".data, address := { host := "hA".data, port := 6001 }, token := 20 }

/-- Concrete ring entry: a virtual node of physical B. -/
def nodeB3 : StorageNodeInfo :=
  { node_id := "B".data, address := { host := "hB".data, port := 6002 }, token := 30 }

/-- A ring in which physical A owns two adjacent virtual nodes ahead of
physical B. -/
def ringAAB : List StorageNodeInfo := [nodeA1, nodeA2, nodeB3]

/-- A two-entry ring whose tokens are both below the hash value five. -/
def ringLow : List StorageNodeInfo :=
  [ { node_id := "A".data, address := { host := "hA".data, port := 6001 }, token := 1 }
  , { node_id := "B".data, address := { host := "hB".data, port := 6002 }, token := 2 } ]

/-- A concrete storage state of node A holding the ringAAB snapshot. -/
def stNodeA : GTStoreStorage.StorageState :=
  { kv_store := [], key_locks := [], paused := false
  , routing_table := ringAAB, replication_factor := 2, storage_id := "A".data }

/-- A concrete storage state in which key k2 is locked by another holder. -/
def stLockedK2 : GTStoreStorage.StorageState :=
  { kv_store := [], key_locks := [("k2".data, "c9".data)], paused := false
  , routing_table := ringAAB, replication_factor := 2, storage_id := "A".data }

/-- A concrete paused storage state holding one key. -/
def stPausedA : GTStoreStorage.StorageState :=
  { kv_store := [("x".data, "1".data)], key_locks := [], paused := true
  , routing_table := ringAAB, replication_factor := 2, storage_id := "A".data }

/-- A concrete manager state: physical A heartbeat stale, B fresh. -/
def mgrSt : GTStoreManager.ManagerState :=
  { node_table := ringAAB
  , heartbeat_times := [("A".data, 1000000000), ("B".data, 8000000000)]
  , replication_factor := 2 }

/-- A table entry whose node id carries a trailing space: free of commas,
semicolons and hash marks, with port and token in range. -/
def nodeTrailingSpace : StorageNodeInfo :=
  { node_id := ['a', ' '], address := { host := ['h'], port := 1 }, token := 2 }

namespace gtstore_utils

theorem split_not_delim (d : Char) : ∀ (s : Str), ∀ f ∈ split s d, d ∉ f := by
  intro s
  induction s with
  | nil => intro f hf; simp [split] at hf
  | cons c rest ih =>
    intro f hf
    by_cases hc : c = d
    · rw [split, if_pos hc] at hf
      rcases List.mem_cons.mp hf with h | h
      · subst h; simp
      · exact ih f h
    · rw [split, if_neg hc] at hf
      cases hsr : split rest d with
      | nil =>
        rw [hsr] at hf
        simp only [List.mem_singleton] at hf
        subst hf
        simp only [List.mem_singleton]
        exact fun hh => hc hh.symm
      | cons f0 fs =>
        rw [hsr] at hf
        rcases List.mem_cons.mp hf with h | h
        · subst h
          intro hd
          rcases List.mem_cons.mp hd with h | h
          · exact hc h.symm
          · exact ih f0 (hsr ▸ List.mem_cons_self f0 fs) h
        · exact ih f (hsr ▸ List.mem_cons_of_mem f0 h)

theorem split_singleton (d : Char) : ∀ (s : Str), s ≠ [] → d ∉ s → split s d = [s] := by
  intro s
  induction s with
  | nil => intro h; exact absurd rfl h
  | cons c rest ih =>
    intro _ hd
    have hc : ¬ c = d := fun h => hd (h ▸ List.mem_cons_self c rest)
    rw [split, if_neg hc]
    cases rest with
    | nil => simp [split]
    | cons c2 t =>
      have h2 : split (c2 :: t) d = [c2 :: t] :=
        ih (List.cons_ne_nil c2 t) (fun h => hd (List.mem_cons_of_mem c h))
      rw [h2]

theorem split_append_delim (d : Char) :
    ∀ (a b : Str), d ∉ a → split (a ++ d :: b) d = a :: split b d := by
  intro a
  induction a with
  | nil => intro b _; rw [List.nil_append, split, if_pos rfl]
  | cons c a' ih =>
    intro b hd
    have hc : ¬ c = d := fun h => hd (h ▸ List.mem_cons_self c a')
    rw [List.cons_append, split, if_neg hc,
      ih b (fun h => hd (List.mem_cons_of_mem c h))]

theorem split_join (d : Char) :
    ∀ (parts : List Str), (∀ p ∈ parts, p ≠ [] ∧ d ∉ p) →
      split (join parts d) d = parts := by
  intro parts
  induction parts with
  | nil => intro _; rw [join, split]
  | cons p rest ih =>
    intro hp
    cases rest with
    | nil =>
      obtain ⟨h1, h2⟩ := hp p (List.mem_cons_self p [])
      have hj : join [p] d = p := rfl
      rw [hj]
      exact split_singleton d p h1 h2
    | cons q t =>
      have hjoin : join (p :: q :: t) d = p ++ d :: join (q :: t) d := rfl
      rw [hjoin, split_append_delim d p _ (hp p (List.mem_cons_self _ _)).2,
        ih (fun x hx => hp x (List.mem_cons_of_mem p hx))]

theorem digitC_isDigit {n : Nat} (h : n < 10) : isDigitC (digitC n) = true := by
  interval_cases n <;> decide

theorem natDigitsCore_extra (n : Nat) : ∀ (fuel1 fuel2 : Nat), n < fuel1 → n < fuel2 →
    natDigitsCore fuel1 n = natDigitsCore fuel2 n := by
  induction n using Nat.strong_induction_on with
  | _ n ih =>
    intro fuel1 fuel2 h1 h2
    cases fuel1 with
    | zero => omega
    | succ f1 =>
      cases fuel2 with
      | zero => omega
      | succ f2 =>
        rw [natDigitsCore, natDigitsCore]
        by_cases h10 : n < 10
        · rw [if_pos h10, if_pos h10]
        · have hdiv : n / 10 < n := Nat.div_lt_self (by omega) (by omega)
          rw [if_neg h10, if_neg h10, ih (n / 10) hdiv f1 f2 (by omega) (by omega)]

theorem natDigits_eq (n : Nat) :
    natDigits n = if n < 10 then [digitC n] else natDigits (n / 10) ++ [digitC (n % 10)] := by
  rw [natDigits]
  show (if n < 10 then [digitC n] else natDigitsCore n (n / 10) ++ [digitC (n % 10)]) = _
  by_cases h10 : n < 10
  · rw [if_pos h10, if_pos h10]
  · have hdiv : n / 10 < n := Nat.div_lt_self (by omega) (by omega)
    rw [if_neg h10, if_neg h10, natDigits,
      natDigitsCore_extra (n / 10) n (n / 10 + 1) (by omega) (by omega)]

theorem natDigits_ne_nil (n : Nat) : natDigits n ≠ [] := by
  rw [natDigits_eq]
  split
  · exact List.cons_ne_nil _ _
  · simp

theorem natDigits_all_digit (n : Nat) : ∀ c ∈ natDigits n, isDigitC c = true := by
  induction n using Nat.strong_induction_on with
  | _ n ih =>
    rw [natDigits_eq]
    split
    · intro c hc
      rw [List.mem_singleton] at hc
      subst hc
      exact digitC_isDigit (by omega)
    · intro c hc
      rcases List.mem_append.mp hc with h | h
      · exact ih (n / 10) (Nat.div_lt_self (by omega) (by omega)) c h
      · rw [List.mem_singleton] at h
        subst h
        exact digitC_isDigit (Nat.mod_lt n (by omega))

theorem digitVal_digitC {n : Nat} (h : n < 10) : digitVal (digitC n) = n := by
  interval_cases n <;> decide

theorem digitsVal_append (xs : Str) (c : Char) :
    digitsVal (xs ++ [c]) = 10 * digitsVal xs + digitVal c := by
  simp [digitsVal, List.foldl_append]

theorem digitsVal_natDigits (n : Nat) : digitsVal (natDigits n) = n := by
  induction n using Nat.strong_induction_on with
  | _ n ih =>
    rw [natDigits_eq]
    split
    · rename_i h
      show digitsVal [digitC n] = n
      simp [digitsVal, digitVal_digitC h]
    · rename_i h
      rw [digitsVal_append, ih (n / 10) (Nat.div_lt_self (by omega) (by omega)),
        digitVal_digitC (Nat.mod_lt n (by omega))]
      omega

theorem digit_not_space {c : Char} (h : isDigitC c = true) : isSpaceC c = false := by
  cases hs : isSpaceC c
  · rfl
  · exfalso
    simp only [isSpaceC, Bool.or_eq_true, decide_eq_true_eq] at hs
    rcases hs with (((((h1 | h1) | h1) | h1) | h1) | h1) <;>
      (subst h1; exact absurd h (by decide))

theorem digit_ne_sep {c : Char} (h : isDigitC c = true) :
    c ≠ ',' ∧ c ≠ ';' ∧ c ≠ '#' := by
  refine ⟨?_, ?_, ?_⟩ <;> (intro he; subst he; exact absurd h (by decide))

theorem dropWhile_of_all {p : Char → Bool} {s : Str}
    (h : ∀ c ∈ s, p c = false) : s.dropWhile p = s := by
  cases s with
  | nil => rfl
  | cons c t => simp [List.dropWhile, h c (List.mem_cons_self c t)]

theorem takeWhile_of_all {p : Char → Bool} : ∀ {s : Str},
    (∀ c ∈ s, p c = true) → s.takeWhile p = s := by
  intro s
  induction s with
  | nil => intro _; rfl
  | cons c t ih =>
    intro h
    simp [List.takeWhile, h c (List.mem_cons_self c t),
      ih (fun x hx => h x (List.mem_cons_of_mem c hx))]

theorem trim_of_no_space {s : Str} (h : ∀ c ∈ s, isSpaceC c = false) :
    trim s = s := by
  rw [trim, dropWhile_of_all h,
    dropWhile_of_all (fun c hc => h c (List.mem_reverse.mp hc)), List.reverse_reverse]

theorem trim_natDigits (n : Nat) : trim (natDigits n) = natDigits n :=
  trim_of_no_space (fun c hc => digit_not_space (natDigits_all_digit n c hc))

theorem stoul_natDigits {n maxVal : Nat} (h : n ≤ maxVal) :
    stoulModel (natDigits n) maxVal = some n := by
  have hds := natDigits_all_digit n
  rw [stoulModel]
  rw [dropWhile_of_all (fun c hc => digit_not_space (hds c hc)),
    takeWhile_of_all hds, if_neg (by simpa using natDigits_ne_nil n),
    digitsVal_natDigits, if_pos h]

theorem takeWhile_append_delim (c : Char) : ∀ (a b : Str), c ∉ a →
    (a ++ c :: b).takeWhile (fun x => x ≠ c) = a := by
  intro a
  induction a with
  | nil => intro b _; simp [List.takeWhile]
  | cons x a' ih =>
    intro b hc
    have hx : ¬ x = c := fun h => hc (h ▸ List.mem_cons_self x a')
    have hdec : decide (x ≠ c) = true := decide_eq_true hx
    simp only [List.cons_append, List.takeWhile, hdec]
    exact congrArg (List.cons x) (ih b (fun h => hc (List.mem_cons_of_mem x h)))

theorem dropWhile_append_delim (c : Char) : ∀ (a b : Str), c ∉ a →
    (a ++ c :: b).dropWhile (fun x => x ≠ c) = c :: b := by
  intro a
  induction a with
  | nil => intro b _; simp [List.dropWhile]
  | cons x a' ih =>
    intro b hc
    have hx : ¬ x = c := fun h => hc (h ▸ List.mem_cons_self x a')
    have hdec : decide (x ≠ c) = true := decide_eq_true hx
    simp only [List.cons_append, List.dropWhile, hdec]
    exact ih b (fun h => hc (List.mem_cons_of_mem x h))

theorem breakAt_append (c : Char) (a b : Str) (h : c ∉ a) :
    breakAt (a ++ c :: b) c = some (a, b) := by
  rw [breakAt, if_pos (List.mem_append.mpr (Or.inr (List.mem_cons_self c b)))]
  rw [takeWhile_append_delim c a b h, dropWhile_append_delim c a b h]
  rfl

theorem not_comma_natDigits (n : Nat) : ',' ∉ natDigits n :=
  fun hc => (digit_ne_sep (natDigits_all_digit n ',' hc)).1 rfl

theorem not_semi_natDigits (n : Nat) : ';' ∉ natDigits n :=
  fun hc => (digit_ne_sep (natDigits_all_digit n ';' hc)).2.1 rfl

theorem not_hashmark_natDigits (n : Nat) : '#' ∉ natDigits n :=
  fun hc => (digit_ne_sep (natDigits_all_digit n '#' hc)).2.2 rfl

theorem parse_row_of_fields (id host : Str) (port token : Nat)
    (hid : ',' ∉ id) (hhost : ',' ∉ host)
    (htid : trim id = id) (hthost : trim host = host)
    (hport : port < 65536) (htoken : token < 18446744073709551616) :
    parse_table_row (id ++ ',' :: (host ++ ',' :: (natDigits port ++ ',' :: natDigits token)))
      = some (some { node_id := id
                   , address := { host := host, port := port }
                   , token := token }) := by
  have hsplit : split (id ++ ',' :: (host ++ ',' :: (natDigits port ++ ',' :: natDigits token))) ','
      = [id, host, natDigits port, natDigits token] := by
    rw [split_append_delim ',' id _ hid, split_append_delim ',' host _ hhost,
      split_append_delim ',' (natDigits port) _ (not_comma_natDigits port),
      split_singleton ',' (natDigits token) (natDigits_ne_nil _) (not_comma_natDigits token)]
  have hne : id ++ ',' :: (host ++ ',' :: (natDigits port ++ ',' :: natDigits token)) ≠ [] := by
    intro hcontra
    have := congrArg List.length hcontra
    simp at this
  simp only [parse_table_row, if_neg hne, hsplit]
  simp only [List.length_cons, List.length_nil, List.getD_cons_succ, List.getD_cons_zero,
    if_pos rfl]
  rw [stoul_natDigits (by omega), stoul_natDigits (by omega)]
  simp only [htid, hthost, Nat.mod_eq_of_lt hport, Nat.mod_eq_of_lt htoken]
  simp

theorem row_ne_nil (e : StorageNodeInfo) :
    e.node_id ++ ',' :: (e.address.host ++ ',' ::
      (natDigits e.address.port ++ ',' :: natDigits e.token)) ≠ [] := by
  intro hcontra
  have := congrArg List.length hcontra
  simp at this

theorem row_no_semi (e : StorageNodeInfo)
    (hid : ';' ∉ e.node_id) (hhost : ';' ∉ e.address.host) :
    ';' ∉ e.node_id ++ ',' :: (e.address.host ++ ',' ::
      (natDigits e.address.port ++ ',' :: natDigits e.token)) := by
  intro hmem
  simp only [List.mem_append, List.mem_cons] at hmem
  rcases hmem with h | h | h | h | h | h
  · exact hid h
  · exact absurd h (by decide)
  · exact hhost h
  · exact absurd h (by decide)
  · exact not_semi_natDigits _ h
  · rcases h with h | h
    · exact absurd h (by decide)
    · exact not_semi_natDigits _ h

theorem parse_rows_map (nodes : List StorageNodeInfo)
    (hfields : ∀ e ∈ nodes,
      (',' ∉ e.node_id ∧ ',' ∉ e.address.host) ∧
      (trim e.node_id = e.node_id ∧ trim e.address.host = e.address.host) ∧
      e.address.port < 65536 ∧ e.token < 18446744073709551616) :
    parse_table_rows (nodes.map (fun node =>
      node.node_id ++ ',' :: (node.address.host ++ ',' ::
        (natDigits node.address.port ++ ',' :: natDigits node.token)))) = some nodes := by
  induction nodes with
  | nil => rfl
  | cons e rest ih =>
    obtain ⟨⟨h1, h2⟩, ⟨h3, h4⟩, h5, h6⟩ := hfields e (List.mem_cons_self e rest)
    rw [List.map_cons, parse_table_rows,
      parse_row_of_fields e.node_id e.address.host e.address.port e.token h1 h2 h3 h4 h5 h6,
      ih (fun x hx => hfields x (List.mem_cons_of_mem e hx))]

end gtstore_utils

namespace SpecModel

theorem collectDistinct_fresh (l : List StorageNodeInfo) : ∀ (seen : List Str) (k : Nat),
    ((collectDistinct seen l k).map (fun e => e.node_id)).Nodup ∧
    ∀ e ∈ collectDistinct seen l k, e.node_id ∉ seen := by
  induction l with
  | nil =>
    intro seen k
    cases k <;> simp [collectDistinct]
  | cons e rest ih =>
    intro seen k
    cases k with
    | zero => simp [collectDistinct]
    | succ k' =>
      rw [collectDistinct]
      by_cases hm : e.node_id ∈ seen
      · rw [if_pos hm]
        exact ih seen (k' + 1)
      · rw [if_neg hm]
        obtain ⟨ihn, ihs⟩ := ih (e.node_id :: seen) k'
        refine ⟨?_, ?_⟩
        · rw [List.map_cons, List.nodup_cons]
          refine ⟨?_, ihn⟩
          intro hmem
          obtain ⟨x, hx, hxe⟩ := List.mem_map.mp hmem
          exact ihs x hx (hxe ▸ List.mem_cons_self _ _)
        · intro x hx
          rcases List.mem_cons.mp hx with hh | hh
          · subst hh; exact hm
          · exact fun hs => ihs x hh (List.mem_cons_of_mem _ hs)

theorem insert_sdiff_split (a : Str) (s t : Finset Str) (ha : a ∉ t) :
    insert a s \ t = insert a (s \ insert a t) := by
  ext x
  simp only [Finset.mem_sdiff, Finset.mem_insert]
  constructor
  · rintro ⟨h1 | h1, h2⟩
    · exact Or.inl h1
    · by_cases hx : x = a
      · exact Or.inl hx
      · exact Or.inr ⟨h1, fun hc => (hc.elim hx h2)⟩
  · rintro (h1 | ⟨h1, h2⟩)
    · subst h1; exact ⟨Or.inl rfl, ha⟩
    · exact ⟨Or.inr h1, fun hc => h2 (Or.inr hc)⟩

theorem collectDistinct_length (l : List StorageNodeInfo) : ∀ (seen : List Str) (k : Nat),
    (collectDistinct seen l k).length
      = min k (((l.map (fun e => e.node_id)).toFinset \ seen.toFinset).card) := by
  induction l with
  | nil =>
    intro seen k
    cases k <;> simp [collectDistinct]
  | cons e rest ih =>
    intro seen k
    cases k with
    | zero => simp [collectDistinct]
    | succ k' =>
      rw [collectDistinct]
      by_cases hm : e.node_id ∈ seen
      · rw [if_pos hm, ih seen (k' + 1), List.map_cons, List.toFinset_cons,
          Finset.insert_sdiff_of_mem _ (List.mem_toFinset.mpr hm)]
      · rw [if_neg hm, List.length_cons, ih (e.node_id :: seen) k', List.map_cons]
        simp only [List.toFinset_cons]
        rw [insert_sdiff_split e.node_id _ _ (fun hc => hm (List.mem_toFinset.mp hc)),
          Finset.card_insert_of_not_mem (by simp)]
        omega

theorem collectDistinct_take (l : List StorageNodeInfo) : ∀ (seen : List Str) (k : Nat),
    ((l.take k).map (fun e => e.node_id)).Nodup →
    (∀ e ∈ l.take k, e.node_id ∉ seen) →
    collectDistinct seen l k = l.take k := by
  induction l with
  | nil =>
    intro seen k _ _
    cases k <;> simp [collectDistinct]
  | cons e rest ih =>
    intro seen k hnd hns
    cases k with
    | zero => simp [collectDistinct]
    | succ k' =>
      rw [List.take_succ_cons] at hnd hns
      have he : e.node_id ∉ seen := hns e (List.mem_cons_self _ _)
      rw [collectDistinct, if_neg he, List.take_succ_cons]
      rw [List.map_cons, List.nodup_cons] at hnd
      refine congrArg (List.cons e) (ih (e.node_id :: seen) k' hnd.2 ?_)
      intro x hx
      intro hc
      rcases List.mem_cons.mp hc with hh | hh
      · exact hnd.1 (hh ▸ List.mem_map_of_mem (fun y => y.node_id) hx)
      · exact hns x (List.mem_cons_of_mem _ hx) hh

theorem preference_list_card (h : HashFn) (ring : List StorageNodeInfo) (bigK : Nat)
    (key : Str) :
    (preference_list h ring bigK key).length = min bigK (distinctPhysicals ring) := by
  rw [preference_list, collectDistinct_length]
  have hperm : List.Perm ((ring.rotate (specStartIndex h ring key)).map (fun e => e.node_id))
      (ring.map (fun e => e.node_id)) :=
    (List.rotate_perm ring (specStartIndex h ring key)).map (fun e => e.node_id)
  rw [List.toFinset_nil, Finset.sdiff_empty, distinctPhysicals,
    List.toFinset.ext (fun x => hperm.mem_iff)]

theorem filterMap_all_some {α β : Type} (f : α → Option β) (g : α → β) :
    ∀ l : List α, (∀ a ∈ l, f a = some (g a)) → l.filterMap f = l.map g := by
  intro l
  induction l with
  | nil => intro _; rfl
  | cons a t ih =>
    intro hall
    rw [List.filterMap_cons, hall a (List.mem_cons_self a t), List.map_cons,
      ih (fun x hx => hall x (List.mem_cons_of_mem a hx))]

theorem specStartIndex_found (h : HashFn) (ring : List StorageNodeInfo) (key : Str)
    (hfound : ∃ e ∈ ring, h key ≤ e.token) :
    ring.findIdx? (fun e => h key ≤ e.token) = some (specStartIndex h ring key) ∧
    specStartIndex h ring key < ring.length := by
  obtain ⟨e, he, hp⟩ := hfound
  have h1 : ring.findIdx? (fun e => decide (h key ≤ e.token))
      = some (ring.findIdx (fun e => decide (h key ≤ e.token))) :=
    List.findIdx?_eq_some_of_exists ⟨e, he, decide_eq_true hp⟩
  have h2 := (List.findIdx?_eq_some_iff_findIdx_eq.mp h1).1
  refine ⟨?_, ?_⟩
  · rw [specStartIndex, h1]; rfl
  · rw [specStartIndex, h1]; exact h2

theorem preference_list_eq_walkSlots (h : HashFn) (ring : List StorageNodeInfo)
    (bigK : Nat) (key : Str)
    (hnd : ((walkSlots h ring key bigK).map (fun e => e.node_id)).Nodup) :
    preference_list h ring bigK key = walkSlots h ring key bigK := by
  rw [preference_list, walkSlots]
  exact collectDistinct_take _ [] bigK hnd (fun _ _ => List.not_mem_nil _)

theorem fanout_eq_drop_slots (ring : List StorageNodeInfo) (bigK s : Nat)
    (hs : s < ring.length) (hK : bigK ≤ ring.length) :
    GTStoreStorage.fanoutTargets ring s s bigK = ((ring.rotate s).take bigK).drop 1 := by
  cases bigK with
  | zero => simp [GTStoreStorage.fanoutTargets]
  | succ k' =>
    have hlen : 0 < ring.length := by omega
    rw [GTStoreStorage.fanoutTargets, List.range_succ_eq_map, List.filterMap_cons]
    simp only [Nat.add_zero, Nat.mod_eq_of_lt hs, eq_self_iff_true, if_true]
    rw [List.filterMap_map]
    have hmod : ∀ rep : Nat, rep < k' → (s + (rep + 1)) % ring.length ≠ s := by
      intro rep hrep hcontra
      rcases Nat.lt_or_ge (s + (rep + 1)) ring.length with hlt | hge
      · rw [Nat.mod_eq_of_lt hlt] at hcontra; omega
      · rw [Nat.mod_eq_sub_mod hge, Nat.mod_eq_of_lt (by omega)] at hcontra; omega
    rw [filterMap_all_some _
      (fun rep => ring.getD ((s + (rep + 1)) % ring.length) dummyEntry) _
      (fun rep hrep => by
        simp only [Function.comp]
        rw [if_neg (hmod rep (by simpa using hrep))])]
    refine List.ext_getElem ?_ ?_
    · simp only [List.length_map, List.length_range, List.length_drop, List.length_take,
        List.length_rotate]
      omega
    · intro i h1 h2
      simp only [List.getElem_map, List.getElem_range]
      rw [List.getElem_drop, List.getElem_take, List.getElem_rotate]
      rw [List.getD_eq_getElem _ _ (Nat.mod_lt _ hlen)]
      have hidx : s + (i + 1) = 1 + i + s := by omega
      simp only [hidx]

theorem pick_eq_walkSlot (h : HashFn) (ring : List StorageNodeInfo) (key : Str)
    (bigK attempt junk : Nat)
    (hfound : ∃ e ∈ ring, h key ≤ e.token)
    (hK : bigK ≤ ring.length) (ha : attempt < bigK)
    (hsize : ring.length < 9223372036854775808) :
    GTStoreClient.pick_node_for_attempt h ring key attempt junk
      = (walkSlots h ring key bigK).getD attempt GTStoreClient.emptyTableSentinel := by
  obtain ⟨hfi, hlt⟩ := specStartIndex_found h ring key hfound
  have hne : ring ≠ [] := by
    obtain ⟨e, he, _⟩ := hfound
    exact List.ne_nil_of_mem he
  have hlen : 0 < ring.length := List.length_pos.mpr hne
  have hstart : GTStoreClient.clientStartIndex h ring key junk
      = specStartIndex h ring key := by
    simp only [GTStoreClient.clientStartIndex, hfi]
    rw [if_neg (by omega)]
  simp only [GTStoreClient.pick_node_for_attempt, if_neg hne, hstart]
  have hmod64 : (specStartIndex h ring key + attempt) % 18446744073709551616
      = specStartIndex h ring key + attempt :=
    Nat.mod_eq_of_lt (by omega)
  rw [hmod64]
  have hwlen : attempt < (walkSlots h ring key bigK).length := by
    rw [walkSlots]
    simp only [List.length_take, List.length_rotate]
    omega
  rw [List.getD_eq_getElem _ _ (Nat.mod_lt _ hlen), List.getD_eq_getElem _ _ hwlen]
  simp only [walkSlots]
  rw [List.getElem_take, List.getElem_rotate]
  have hidx : specStartIndex h ring key + attempt = attempt + specStartIndex h ring key := by
    omega
  simp only [hidx]

end SpecModel

namespace GTStoreManager

theorem mem_dedupFirstAux : ∀ (l seen : List Str) (x : Str),
    x ∈ dedupFirstAux seen l ↔ x ∈ l ∧ x ∉ seen := by
  intro l
  induction l with
  | nil => intro seen x; simp [dedupFirstAux]
  | cons y rest ih =>
    intro seen x
    rw [dedupFirstAux]
    by_cases hy : y ∈ seen
    · rw [if_pos hy, ih]
      constructor
      · rintro ⟨hx, hs⟩
        exact ⟨List.mem_cons_of_mem _ hx, hs⟩
      · rintro ⟨hx, hs⟩
        rcases List.mem_cons.mp hx with hh | hh
        · subst hh; exact absurd hy hs
        · exact ⟨hh, hs⟩
    · rw [if_neg hy]
      constructor
      · intro hx
        rcases List.mem_cons.mp hx with hh | hh
        · subst hh
          exact ⟨List.mem_cons_self _ _, hy⟩
        · obtain ⟨h1, h2⟩ := (ih (y :: seen) x).mp hh
          exact ⟨List.mem_cons_of_mem _ h1, fun hs => h2 (List.mem_cons_of_mem _ hs)⟩
      · rintro ⟨hx, hs⟩
        rcases List.mem_cons.mp hx with hh | hh
        · subst hh
          exact List.mem_cons_self _ _
        · by_cases hxy : x = y
          · subst hxy
            exact List.mem_cons_self _ _
          · exact List.mem_cons_of_mem _ ((ih (y :: seen) x).mpr
              ⟨hh, fun hc => (List.mem_cons.mp hc).elim hxy hs⟩)

theorem mem_dedupFirst : ∀ (l : List Str) (x : Str), x ∈ dedupFirst l ↔ x ∈ l := by
  intro l x
  rw [dedupFirst, mem_dedupFirstAux]
  simp

theorem mem_expiredIds (table : List StorageNodeInfo) (hbs : List (Str × Nat))
    (now : Nat) (id : Str) :
    id ∈ expiredIds table hbs now ↔
      ∃ e ∈ table, e.node_id = id ∧ heartbeatExpired hbs now id = true := by
  rw [expiredIds, mem_dedupFirst]
  constructor
  · intro hx
    obtain ⟨e, he, heq⟩ := List.mem_map.mp hx
    obtain ⟨hmem, hexp⟩ := List.mem_filter.mp he
    exact ⟨e, hmem, heq, heq ▸ hexp⟩
  · rintro ⟨e, hmem, heq, hexp⟩
    exact List.mem_map.mpr ⟨e, List.mem_filter.mpr ⟨hmem, heq ▸ hexp⟩, heq⟩

theorem heartbeatExpired_iff (hbs : List (Str × Nat)) (now : Nat) (id : Str) :
    heartbeatExpired hbs now id = true ↔
      ∀ t, findInstant id hbs = some t → failureTimeoutNs < now - t := by
  rw [heartbeatExpired]
  cases hf : findInstant id hbs with
  | none =>
    simp
  | some t0 =>
    constructor
    · intro hd t ht
      cases ht
      exact of_decide_eq_true hd
    · intro hall
      exact decide_eq_true (hall t0 rfl)

end GTStoreManager

/-- C1 (counterexample): with two replicas to walk, an acknowledged
CLIENT_PUT from the primary (first attempt) followed by a failed REPL_PUT
to the second replica makes the client's put return false, although the
claim says a single successful PUT_OK from the primary suffices for put
to return true. -/
theorem C1_counterexample_primary_ack_insufficient :
    GTStoreClient.replicasFor 2 2 = 2 ∧
    [true, false].headD false = true ∧
    GTStoreClient.put_outcome 2 [true, false] true = false := by
  decide

/-- C1 (amended): the client's put returns true exactly when every walked
replica acknowledged its write and the primary also acknowledged the
final REPL_CONFIRM; a single acknowledgement short of that makes put
return false after the walk completes. -/
theorem C1_put_requires_all_acks (replicas : Nat) (acks : List Bool) (confirmAck : Bool)
    (hlen : acks.length = replicas) (hpos : 1 ≤ replicas) :
    (GTStoreClient.put_outcome replicas acks confirmAck = true
      ↔ ((∀ a ∈ acks, a = true) ∧ confirmAck = true)) := by
  subst hlen
  rw [GTStoreClient.put_outcome]
  cases acks with
  | nil => simp at hpos
  | cons a t =>
    simp only [List.headD_cons]
    by_cases hall : ∀ x ∈ a :: t, x = true
    · have hcount : (a :: t).count true = (a :: t).length :=
        List.count_eq_length.mpr (fun b hb => (hall b hb).symm)
      have ha : a = true := hall a (List.mem_cons_self a t)
      subst ha
      rw [hcount]
      simp only [ne_eq, not_true_eq_false, if_false, if_true]
      constructor
      · intro hc
        exact ⟨hall, hc⟩
      · rintro ⟨_, hc⟩
        exact hc
    · have hcount : (a :: t).count true ≠ (a :: t).length := by
        intro hc
        exact hall (fun b hb => (List.count_eq_length.mp hc b hb).symm)
      rw [if_pos hcount]
      constructor
      · intro hfalse
        exact absurd hfalse (by simp)
      · rintro ⟨h1, _⟩
        exact absurd h1 hall

/-- C1 (witness): with one replica and its acknowledgement plus the
confirm acknowledgement, put returns true. -/
theorem C1_witness : GTStoreClient.put_outcome 1 [true] true = true :=
  (C1_put_requires_all_acks 1 [true] true rfl (by decide)).mpr ⟨by decide, rfl⟩

/-- C2: when a batched CLIENT_PUT hits a key locked by another holder,
the storage node replies ERROR locked but keeps the locks it acquired
earlier in that request: with k2 pre-locked by another client, the
request k1,k2 leaves k1 locked by the requesting connection, so the lock
table does not return to its pre-request state (the store is untouched). -/
theorem C2_locked_rejection_keeps_acquired_locks :
    (GTStoreStorage.handle_put hashZero stLockedK2 7 "k1|v1;k2|v2".data true).2.1
        = GTStoreStorage.Reply.msg 5 "locked: k2".data ∧
    (GTStoreStorage.handle_put hashZero stLockedK2 7 "k1|v1;k2|v2".data true).1.key_locks
        ≠ stLockedK2.key_locks ∧
    findVal "k1".data
        (GTStoreStorage.handle_put hashZero stLockedK2 7 "k1|v1;k2|v2".data true).1.key_locks
        = some "client_7".data ∧
    (GTStoreStorage.handle_put hashZero stLockedK2 7 "k1|v1;k2|v2".data true).1.kv_store
        = stLockedK2.kv_store := by
  decide

/-- C4: when no ring token is at least the key hash, the selected node
depends on the indeterminate value of the uninitialised start_index (junk
values zero and one select different nodes), instead of deterministically
wrapping to index zero as the claim states. -/
theorem C4_uninitialized_start_index :
    GTStoreClient.pick_node_for_attempt hashFive ringLow "k".data 0 1
        ≠ GTStoreClient.pick_node_for_attempt hashFive ringLow "k".data 0 0 ∧
    GTStoreClient.pick_node_for_attempt hashFive ringLow "k".data 0 0
        = ringLow.getD 0 dummyEntry ∧
    GTStoreClient.pick_node_for_attempt hashFive ringLow "k".data 0 1
        = ringLow.getD 1 dummyEntry := by
  decide

/-- C8: an AVAILABILITY_CHECK is answered with AVAILABLE_STATUS yes
exactly when the lock table is empty, and with AVAILABLE_STATUS no
exactly when it is not, leaving the state untouched. -/
theorem C8_availability_check (h : HashFn) (st : GTStoreStorage.StorageState)
    (fd : Nat) (payload : Str) :
    (GTStoreStorage.dispatch h st fd 22 payload
        = (st, GTStoreStorage.Reply.msg 23 "yes".data, []) ↔ st.key_locks = []) ∧
    (GTStoreStorage.dispatch h st fd 22 payload
        = (st, GTStoreStorage.Reply.msg 23 "no".data, []) ↔ st.key_locks ≠ []) := by
  by_cases hl : st.key_locks = []
  · constructor
    · simp [GTStoreStorage.dispatch, hl]
    · simp [GTStoreStorage.dispatch, hl]
  · constructor
    · simp [GTStoreStorage.dispatch, hl]
    · simp [GTStoreStorage.dispatch, hl]

/-- C8 (witness): a node holding no locks answers yes. -/
theorem C8_witness : GTStoreStorage.dispatch hashZero stNodeA 7 22 []
    = (stNodeA, GTStoreStorage.Reply.msg 23 "yes".data, []) :=
  (C8_availability_check hashZero stNodeA 7 []).1.mpr rfl

/-- C10: the client's value codec round-trips a value list exactly when
every element is non-empty and comma-free, and a parsed value list never
contains an empty string. -/
theorem C10_value_codec :
    (∀ v : List Str, GTStoreClient.parse_value (GTStoreClient.serialize_value v) = v
      ↔ ∀ x ∈ v, x ≠ [] ∧ ',' ∉ x) ∧
    (∀ payload : Str, ∀ x ∈ GTStoreClient.parse_value payload, x ≠ []) := by
  have hmem : ∀ (payload : Str) (x : Str), x ∈ GTStoreClient.parse_value payload →
      x ≠ [] ∧ ',' ∉ x := by
    intro payload x hx
    rw [GTStoreClient.parse_value] at hx
    obtain ⟨h1, h2⟩ := List.mem_filter.mp hx
    exact ⟨by simpa using h2, gtstore_utils.split_not_delim ',' payload x h1⟩
  refine ⟨?_, fun payload x hx => (hmem payload x hx).1⟩
  intro v
  constructor
  · intro hroundtrip x hx
    exact hmem _ x (hroundtrip ▸ hx)
  · intro hcond
    rw [GTStoreClient.parse_value, GTStoreClient.serialize_value,
      gtstore_utils.split_join ',' v hcond]
    exact List.filter_eq_self.mpr (fun x hx => by simpa using (hcond x hx).1)

/-- C10 (witness): a two-element comma-free value list round-trips. -/
theorem C10_witness :
    GTStoreClient.parse_value (GTStoreClient.serialize_value [['a'], ['b']])
      = [['a'], ['b']] :=
  (C10_value_codec.1 [['a'], ['b']]).mpr (by decide)

/-- C5: all actors hash keys with the same function and agree on the ring
position: consistent_hash is the platform hash itself, the storage
primary index always equals the manager's rebalance index, the client's
start index equals them whenever some token is at least the key hash
(the only case where it is defined), and virtual-token generation uses
the same hash. -/
theorem C5_hash_and_index_agreement (h : HashFn) (table : List StorageNodeInfo)
    (key id : Str) (numVnodes junk : Nat) :
    gtstore_utils.consistent_hash h key = h key ∧
    GTStoreStorage.storage_primary_idx h table key
      = GTStoreManager.manager_primary_idx h table key ∧
    ((∃ e ∈ table, h key ≤ e.token) →
      GTStoreClient.clientStartIndex h table key junk
        = GTStoreManager.manager_primary_idx h table key) ∧
    gtstore_utils.generate_virtual_tokens h id numVnodes
      = (List.range numVnodes).map (fun i => h (id ++ gtstore_utils.natDigits i)) := by
  have hpred : (fun (e : StorageNodeInfo) =>
      decide (e.token ≥ gtstore_utils.consistent_hash h key))
      = (fun (e : StorageNodeInfo) => decide (h key ≤ e.token)) := rfl
  have hmgr : GTStoreManager.manager_primary_idx h table key
      = (table.findIdx? (fun e => decide (h key ≤ e.token))).getD 0 := by
    rw [GTStoreManager.manager_primary_idx, hpred]
    cases table.findIdx? (fun e => decide (h key ≤ e.token)) <;> rfl
  refine ⟨rfl, ?_, ?_, rfl⟩
  · rw [GTStoreStorage.storage_primary_idx, hmgr]
  · intro hfound
    obtain ⟨hfi, hlt⟩ := SpecModel.specStartIndex_found h table key hfound
    have h1 : GTStoreClient.clientStartIndex h table key junk
        = SpecModel.specStartIndex h table key := by
      simp only [GTStoreClient.clientStartIndex, hfi]
      rw [if_neg (by omega)]
    rw [h1, hmgr, SpecModel.specStartIndex, hfi]

/-- C5 (witness): on a concrete ring with a matching token, the client's
start index equals the manager's primary index. -/
theorem C5_witness :
    GTStoreClient.clientStartIndex hashZero ringAAB "k".data 7
      = GTStoreManager.manager_primary_idx hashZero ringAAB "k".data :=
  (C5_hash_and_index_agreement hashZero ringAAB "k".data [] 0 7).2.2.1
    ⟨nodeA1, by decide, by decide⟩

/-- C6 (counterexample): the wire alphabet of net_common.hpp contains no
CLIENT_DELETE message type at all (and no type uses the one unassigned
id 16 in the wire range); a request with such an unassigned id is
answered ERROR unknown whether the node is paused or not, never with the
claimed NODE_PAUSED refusal. -/
theorem C6_counterexample_no_client_delete :
    "CLIENT_DELETE".data ∉ messageTypeIds.map Prod.fst ∧
    (16 : Nat) ∉ messageTypeIds.map Prod.snd ∧
    GTStoreStorage.dispatch hashZero stPausedA 7 16 "x".data
        = (stPausedA, GTStoreStorage.Reply.msg 5 "unknown".data, []) ∧
    GTStoreStorage.dispatch hashZero { stPausedA with paused := false } 7 16 "x".data
        = ({ stPausedA with paused := false },
           GTStoreStorage.Reply.msg 5 "unknown".data, []) := by
  decide

/-- C6 (amended): while paused, CLIENT_PUT and CLIENT_GET are refused
with an ERROR node_paused reply that leaves the state untouched, while
REPL_PUT, GET_ALL_KEYS, RESUME_NODE, AVAILABILITY_CHECK, MANAGER_GET and
MANAGER_DELETE behave exactly as they do unpaused (same store, lock
table, routing data, reply and outgoing sends); there is no CLIENT_DELETE
message type. -/
theorem C6_pause_guard (h : HashFn) (st : GTStoreStorage.StorageState)
    (fd : Nat) (payload : Str) :
    GTStoreStorage.dispatch h { st with paused := true } fd 1 payload
        = ({ st with paused := true },
           GTStoreStorage.Reply.msg 5 "node_paused".data, []) ∧
    GTStoreStorage.dispatch h { st with paused := true } fd 2 payload
        = ({ st with paused := true },
           GTStoreStorage.Reply.msg 5 "node_paused".data, []) ∧
    ∀ t ∈ [6, 14, 19, 22, 24, 25],
      GTStoreStorage.obs (GTStoreStorage.dispatch h { st with paused := true } fd t payload)
        = GTStoreStorage.obs
            (GTStoreStorage.dispatch h { st with paused := false } fd t payload) := by
  refine ⟨rfl, rfl, ?_⟩
  intro t ht
  fin_cases ht <;> rfl

/-- C6 (witness): a paused node serves MANAGER_GET with the same
observable outcome as an unpaused one. -/
theorem C6_witness :
    GTStoreStorage.obs (GTStoreStorage.dispatch hashZero { stNodeA with paused := true }
        7 24 "x".data)
      = GTStoreStorage.obs (GTStoreStorage.dispatch hashZero
          { stNodeA with paused := false } 7 24 "x".data) :=
  (C6_pause_guard hashZero stNodeA 7 "x".data).2.2 24 (by decide)

/-- C7: a monitor pass classifies a physical node expired exactly when it
appears in the table and its heartbeat record is absent or more than the
six-second timeout old; every failure-rebalance call of the pass receives
the node table still containing all the expired entries; the expired
entries are then removed in one sweep; the table is rebroadcast exactly
when the pass found expired nodes; and a pass with no expired nodes
changes nothing. -/
theorem C7_failure_detection_order (st : GTStoreManager.ManagerState) (now : Nat) :
    (∀ id, id ∈ GTStoreManager.expiredIds st.node_table st.heartbeat_times now ↔
      ((∃ e ∈ st.node_table, e.node_id = id) ∧
        ∀ t, GTStoreManager.findInstant id st.heartbeat_times = some t →
          GTStoreManager.failureTimeoutNs < now - t)) ∧
    (∀ c ∈ (GTStoreManager.monitor_pass st now).rebalanceCalls, c.2 = st.node_table) ∧
    ((GTStoreManager.monitor_pass st now).rebalanceCalls.map Prod.fst
      = GTStoreManager.expiredIds st.node_table st.heartbeat_times now) ∧
    ((GTStoreManager.monitor_pass st now).finalState.node_table
      = st.node_table.filter (fun e =>
          decide (e.node_id ∉ GTStoreManager.expiredIds st.node_table st.heartbeat_times now))) ∧
    ((GTStoreManager.monitor_pass st now).broadcast = true ↔
      GTStoreManager.expiredIds st.node_table st.heartbeat_times now ≠ []) ∧
    (GTStoreManager.expiredIds st.node_table st.heartbeat_times now = [] →
      (GTStoreManager.monitor_pass st now).finalState = st ∧
      (GTStoreManager.monitor_pass st now).rebalanceCalls = []) := by
  refine ⟨?_, ?_, ?_, ?_, ?_, ?_⟩
  · intro id
    rw [GTStoreManager.mem_expiredIds]
    constructor
    · rintro ⟨e, he, heq, hexp⟩
      exact ⟨⟨e, he, heq⟩, (GTStoreManager.heartbeatExpired_iff _ _ _).mp hexp⟩
    · rintro ⟨⟨e, he, heq⟩, hall⟩
      exact ⟨e, he, heq, (GTStoreManager.heartbeatExpired_iff _ _ _).mpr hall⟩
  · intro c hc
    by_cases hexp : GTStoreManager.expiredIds st.node_table st.heartbeat_times now = []
    · simp [GTStoreManager.monitor_pass, hexp] at hc
    · simp only [GTStoreManager.monitor_pass, if_neg hexp] at hc
      obtain ⟨x, _, rfl⟩ := List.mem_map.mp hc
      rfl
  · by_cases hexp : GTStoreManager.expiredIds st.node_table st.heartbeat_times now = []
    · simp [GTStoreManager.monitor_pass, hexp]
    · simp only [GTStoreManager.monitor_pass, if_neg hexp, List.map_map]
      have hcomp : (Prod.fst ∘ fun id : Str => (id, st.node_table)) = id := rfl
      rw [hcomp, List.map_id]
  · by_cases hexp : GTStoreManager.expiredIds st.node_table st.heartbeat_times now = []
    · rw [GTStoreManager.monitor_pass, if_pos hexp]
      exact (List.filter_eq_self.mpr (fun e _ => by simp [hexp])).symm
    · rw [GTStoreManager.monitor_pass, if_neg hexp]
  · by_cases hexp : GTStoreManager.expiredIds st.node_table st.heartbeat_times now = []
    · simp [GTStoreManager.monitor_pass, hexp]
    · simp [GTStoreManager.monitor_pass, hexp]
  · intro hexp
    rw [GTStoreManager.monitor_pass, if_pos hexp]
    exact ⟨rfl, rfl⟩

/-- C7 (witness): with node A's heartbeat eight seconds stale and B's
fresh, A is classified expired at the concrete pass instant. -/
theorem C7_witness :
    "A".data ∈ GTStoreManager.expiredIds mgrSt.node_table mgrSt.heartbeat_times
      9000000000 :=
  ((C7_failure_detection_order mgrSt 9000000000).1 "A".data).mpr
    ⟨⟨nodeA1, by decide, rfl⟩, by decide⟩

/-- C3 (counterexample): on a ring where physical A owns two adjacent
virtual nodes ahead of physical B, the client's attempts zero and one
pick the same physical node A twice, the specification's preference list
for K = 2 is A then B, so the second attempt does not reach the second
preference-list physical; likewise the primary's fan-out for the same
key sends its REPL_PUT to A's second virtual node (itself) instead of B. -/
theorem C3_counterexample_adjacent_virtual_nodes :
    (GTStoreClient.pick_node_for_attempt hashZero ringAAB "k".data 1 0).node_id
        = (GTStoreClient.pick_node_for_attempt hashZero ringAAB "k".data 0 0).node_id ∧
    SpecModel.preference_list hashZero ringAAB 2 "k".data = [nodeA1, nodeB3] ∧
    GTStoreClient.pick_node_for_attempt hashZero ringAAB "k".data 1 0 ≠ nodeB3 ∧
    (GTStoreStorage.handle_put hashZero stNodeA 7 "k|v".data true).2.2 = [nodeA2] := by
  decide

/-- C3 (amended): the preference list of the specification consists of
min(K, distinct physicals) pairwise-distinct physical nodes, but the
client's per-attempt choice and the primary's fan-out walk consecutive
virtual-node slots without deduplicating physicals; they enumerate the
preference list exactly when the K consecutive slots from the start index
carry pairwise-distinct physical ids (the fan-out then contacting the
preference list minus the primary's own slot). -/
theorem C3_replica_walks (h : HashFn) (ring : List StorageNodeInfo) (bigK : Nat)
    (key : Str)
    (hfound : ∃ e ∈ ring, h key ≤ e.token)
    (hK : bigK ≤ ring.length)
    (hsize : ring.length < 9223372036854775808)
    (hnd : ((SpecModel.walkSlots h ring key bigK).map (fun e => e.node_id)).Nodup) :
    ((SpecModel.preference_list h ring bigK key).map (fun e => e.node_id)).Nodup ∧
    (SpecModel.preference_list h ring bigK key).length
      = min bigK (SpecModel.distinctPhysicals ring) ∧
    SpecModel.preference_list h ring bigK key = SpecModel.walkSlots h ring key bigK ∧
    (∀ attempt junk, attempt < bigK →
      GTStoreClient.pick_node_for_attempt h ring key attempt junk
        = (SpecModel.preference_list h ring bigK key).getD attempt
            GTStoreClient.emptyTableSentinel) ∧
    GTStoreStorage.fanoutTargets ring (SpecModel.specStartIndex h ring key)
        (SpecModel.specStartIndex h ring key) bigK
      = (SpecModel.preference_list h ring bigK key).drop 1 := by
  have heq := SpecModel.preference_list_eq_walkSlots h ring bigK key hnd
  refine ⟨by rw [heq]; exact hnd, SpecModel.preference_list_card h ring bigK key,
    heq, ?_, ?_⟩
  · intro attempt junk ha
    rw [heq, SpecModel.pick_eq_walkSlot h ring key bigK attempt junk hfound hK ha hsize]
  · obtain ⟨_, hlt⟩ := SpecModel.specStartIndex_found h ring key hfound
    rw [heq, SpecModel.walkSlots, SpecModel.fanout_eq_drop_slots ring bigK _ hlt hK]

/-- C3 (witness): on a two-physical ring with distinct slots, attempt one
reaches the second preference-list entry. -/
theorem C3_witness :
    GTStoreClient.pick_node_for_attempt hashZero ringLow "k".data 1 5
      = (SpecModel.preference_list hashZero ringLow 2 "k".data).getD 1
          GTStoreClient.emptyTableSentinel :=
  (C3_replica_walks hashZero ringLow 2 "k".data (by decide) (by decide) (by decide)
    (by decide)).2.2.2.1 1 5 (by decide)

/-- C9 (counterexample): a table entry whose node id has a trailing
space - containing no comma, semicolon or hash mark, with port and token
numeric and in range - does not round-trip: parse_table_payload trims the
id, so the parsed table differs from the original. -/
theorem C9_counterexample_whitespace_trimmed :
    gtstore_utils.parse_table_payload
        (gtstore_utils.build_table_payload [nodeTrailingSpace] 1)
      ≠ some ([nodeTrailingSpace], 1) := by
  decide

/-- C9 (amended): for well-formed entries (fields free of the comma,
semicolon and hash separators, port and token in range) whose node ids
and hosts are additionally unchanged by whitespace trimming, and any
replication factor between one and the uint64 range,
parse_table_payload inverts build_table_payload exactly. -/
theorem C9_roundtrip (nodes : List StorageNodeInfo) (bigK : Nat)
    (hK1 : 1 ≤ bigK) (hK2 : bigK < 18446744073709551616)
    (hid : ∀ e ∈ nodes, ',' ∉ e.node_id ∧ ';' ∉ e.node_id ∧ '#' ∉ e.node_id)
    (hhost : ∀ e ∈ nodes, ',' ∉ e.address.host ∧ ';' ∉ e.address.host ∧ '#' ∉ e.address.host)
    (hrange : ∀ e ∈ nodes, e.address.port < 65536 ∧ e.token < 18446744073709551616)
    (htrim : ∀ e ∈ nodes, gtstore_utils.trim e.node_id = e.node_id ∧
      gtstore_utils.trim e.address.host = e.address.host) :
    gtstore_utils.parse_table_payload (gtstore_utils.build_table_payload nodes bigK)
      = some (nodes, bigK) := by
  have hbreak := gtstore_utils.breakAt_append '#' (gtstore_utils.natDigits bigK)
    (gtstore_utils.join (nodes.map (fun node =>
      node.node_id ++ ',' :: (node.address.host ++ ',' ::
        (gtstore_utils.natDigits node.address.port ++ ',' ::
          gtstore_utils.natDigits node.token)))) ';')
    (gtstore_utils.not_hashmark_natDigits bigK)
  have hsplitrows := gtstore_utils.split_join ';' (nodes.map (fun node =>
      node.node_id ++ ',' :: (node.address.host ++ ',' ::
        (gtstore_utils.natDigits node.address.port ++ ',' ::
          gtstore_utils.natDigits node.token))))
    (by
      intro p hp
      obtain ⟨e, he, rfl⟩ := List.mem_map.mp hp
      exact ⟨gtstore_utils.row_ne_nil e,
        gtstore_utils.row_no_semi e ((hid e he).2.1) ((hhost e he).2.1)⟩)
  have hrows := gtstore_utils.parse_rows_map nodes (fun e he =>
    ⟨⟨(hid e he).1, (hhost e he).1⟩, ⟨(htrim e he).1, (htrim e he).2⟩,
      (hrange e he).1, (hrange e he).2⟩)
  simp only [gtstore_utils.build_table_payload, gtstore_utils.parse_table_payload, hbreak,
    gtstore_utils.trim_natDigits]
  rw [if_neg (gtstore_utils.natDigits_ne_nil bigK),
    gtstore_utils.stoul_natDigits (by omega), hsplitrows, hrows]

/-- C9 (witness): a clean single-entry table with replication factor two
round-trips. -/
theorem C9_witness :
    gtstore_utils.parse_table_payload (gtstore_utils.build_table_payload [nodeA1] 2)
      = some ([nodeA1], 2) :=
  C9_roundtrip [nodeA1] 2 (by decide) (by decide) (by decide) (by decide) (by decide)
    (by decide)
